import Mathlib

/-!
Verification of the OneNote_Remocon window-reacquisition, viewport-centering
and favorites-model code (`src/OneNote_Remocon.py`) against its specification.

The Python source is shallowly embedded below.  External collaborators (the
Win32 window enumeration, the process-image query, the UI-automation binding,
the Qt widget tree and the file system) are modelled as explicit environment
records passed to each embedded function; everything the repository itself
computes is translated directly from the source.
-/

namespace OneNoteRemocon

/-! Section: Python string primitives

Python strings are modelled as Lean `String`s.  The operations the source
uses — `str.lower()`, the substring test `a in b`, and `os.path.basename` —
are defined on the underlying character lists so that they evaluate inside
the kernel.  `Char.toLower` agrees with Python `str.lower()` on the ASCII
and Korean text appearing in this program (Hangul has no case).
-/

/-- Python `s.lower()`. -/
def pyLower (s : String) : String := String.mk (s.toList.map Char.toLower)

/-- Whether `p` is an initial segment of `l`. -/
def startsWithChars : List Char → List Char → Bool
  | _, [] => true
  | [], _ :: _ => false
  | x :: xs, y :: ys => x == y && startsWithChars xs ys

/-- Whether `p` occurs contiguously inside `l`. -/
def subChars : List Char → List Char → Bool
  | _, [] => true
  | [], _ :: _ => false
  | a :: as, p => startsWithChars (a :: as) p || subChars as p

/-- Python `sub in s` (contiguous substring test). -/
def strContains (s sub : String) : Bool := subChars s.toList sub.toList

/-- Python `os.path.basename` on a Windows path: the text after the last
path separator (`\` or `/`). -/
def winBasename (s : String) : String :=
  String.mk ((s.toList.reverse.takeWhile (fun c => c != '\\' && c != '/')).reverse)

/-- Python truthiness of an optional integer (`None` and `0` are falsy). -/
def optTruthyInt : Option Int → Bool
  | none => false
  | some v => v != 0

/-- Python truthiness of an optional string (`None` and `""` are falsy). -/
def optTruthyStr : Option String → Bool
  | none => false
  | some s => s != ""

/-! Section: window fingerprints, catalog entries and the candidate scorer

Source: `build_window_signature`, `enum_windows_fast`, `get_process_image_path`
and `_score_candidate_dict` (src/OneNote_Remocon.py, lines 188–676).
Signature and catalog dictionaries become records whose fields are `Option`s
exactly where the Python value may be `None` / the key may be missing.
The OS query `QueryFullProcessImageNameW` is an external collaborator and is
modelled as an environment function `Int → Option String` from a process id
to the resolved executable path.
-/

/-- Global constant `ONENOTE_CLASS_NAME` (the modern-shell frame class). -/
def ONENOTE_CLASS_NAME : String := "ApplicationFrameWindow"

/-- One entry of the window catalog returned by `enum_windows_fast`
(a dict with keys `handle`, `title`, `class_name`, `pid`). -/
structure CatalogEntry where
  handle : Option Int
  title : Option String
  class_name : Option String
  pid : Option Int
deriving DecidableEq

/-- A stored connection signature, as built by `build_window_signature`. -/
structure WindowSignature where
  handle : Option Int
  pid : Option Int
  class_name : Option String
  title : Option String
  exe_path : Option String
  exe_name : Option String
deriving DecidableEq

/-- Source `get_process_image_path(pid)`: returns `None` when `pid` is falsy
(`None` or `0`); otherwise performs the external OS query, modelled by
`env`. -/
def get_process_image_path (env : Int → Option String) : Option Int → Option String
  | none => none
  | some p => if p == 0 then none else env p

/-- Source `_score_candidate_dict(c, sig)` — the weighted-evidence scorer, a direct
transcription of the accumulation in the source.  The `try/except` wrapper
returning `-1` guards OS faults only; the pure model cannot fault, so the
body is total. -/
def score_candidate_dict (env : Int → Option String) (c : CatalogEntry)
    (sig : WindowSignature) : Int :=
  let title := pyLower (c.title.getD "")
  let cls := c.class_name.getD ""
  let pid := c.pid
  let exe_path := (get_process_image_path env pid).getD ""
  let exe_name := if exe_path != "" then pyLower (winBasename exe_path) else ""
  let score : Int := 0
  let score := if optTruthyInt sig.handle && c.handle == sig.handle then score + 100 else score
  let score := if optTruthyStr sig.exe_name && some exe_name == sig.exe_name then score + 50 else score
  let score := if strContains exe_name "onenote.exe" then score + 50 else score
  let score := if strContains title "onenote" || strContains title "원노트" then score + 25 else score
  let score := if optTruthyStr sig.class_name && some cls == sig.class_name then score + 10 else score
  let score := if optTruthyInt sig.pid && pid == sig.pid then score + 8 else score
  let prev_title := pyLower (sig.title.getD "")
  let score :=
    if prev_title != "" then
      if strContains title prev_title then score + 6
      else
        let score := if strContains prev_title "onenote" && strContains title "onenote" then score + 4 else score
        let score := if strContains prev_title "원노트" && strContains title "원노트" then score + 4 else score
        score
    else score
  let score := if cls == ONENOTE_CLASS_NAME then score + 5 else score
  score

/-- The ten weighted conditions of the scorer, each recorded as the exact
boolean the source tests (the previous-title conditions include the source's
`if prev_title:` truthiness guard). -/
structure MatchConds where
  handleEq : Bool
  exeEq : Bool
  exeOneNote : Bool
  titleKw : Bool
  classEq : Bool
  pidEq : Bool
  prevSub : Bool
  stackEn : Bool
  stackKo : Bool
  classModern : Bool
deriving DecidableEq

/-- The conditions `_score_candidate_dict` checks for a given candidate,
signature and process-image environment. -/
def conds (env : Int → Option String) (c : CatalogEntry) (sig : WindowSignature) :
    MatchConds :=
  let title := pyLower (c.title.getD "")
  let cls := c.class_name.getD ""
  let pid := c.pid
  let exe_path := (get_process_image_path env pid).getD ""
  let exe_name := if exe_path != "" then pyLower (winBasename exe_path) else ""
  let prev_title := pyLower (sig.title.getD "")
  { handleEq := optTruthyInt sig.handle && c.handle == sig.handle
    exeEq := optTruthyStr sig.exe_name && some exe_name == sig.exe_name
    exeOneNote := strContains exe_name "onenote.exe"
    titleKw := strContains title "onenote" || strContains title "원노트"
    classEq := optTruthyStr sig.class_name && some cls == sig.class_name
    pidEq := optTruthyInt sig.pid && pid == sig.pid
    prevSub := prev_title != "" && strContains title prev_title
    stackEn := prev_title != "" && (strContains prev_title "onenote" && strContains title "onenote")
    stackKo := prev_title != "" && (strContains prev_title "원노트" && strContains title "원노트")
    classModern := cls == ONENOTE_CLASS_NAME }

/-- Pointwise order on condition vectors: every condition true in `m` is
also true in `m'`. -/
def MatchConds.le (m m' : MatchConds) : Prop :=
  (m.handleEq → m'.handleEq = true) ∧ (m.exeEq → m'.exeEq = true) ∧
  (m.exeOneNote → m'.exeOneNote = true) ∧ (m.titleKw → m'.titleKw = true) ∧
  (m.classEq → m'.classEq = true) ∧ (m.pidEq → m'.pidEq = true) ∧
  (m.prevSub → m'.prevSub = true) ∧ (m.stackEn → m'.stackEn = true) ∧
  (m.stackKo → m'.stackKo = true) ∧ (m.classModern → m'.classModern = true)

instance (m m' : MatchConds) : Decidable (MatchConds.le m m') := by
  unfold MatchConds.le; infer_instance

/-- Modelled from the spec: §4.1's description of `score` as a sum of
independently checked additive weights over the listed conditions —
+100 handle, +50 executable-basename equality, +50 basename contains the
tracked process name, +25 title keyword, +10 class-name match, +8 process-id
match, +6 previous-title substring else +4 per stacked keyword variant
(max +8), +5 modern-shell frame class.  Compared against
`score_candidate_dict` in claim C4. -/
def weightSum (m : MatchConds) : Int :=
  (if m.handleEq then 100 else 0) + (if m.exeEq then 50 else 0) +
  (if m.exeOneNote then 50 else 0) + (if m.titleKw then 25 else 0) +
  (if m.classEq then 10 else 0) + (if m.pidEq then 8 else 0) +
  (if m.prevSub then 6
   else (if m.stackEn then 4 else 0) + (if m.stackKo then 4 else 0)) +
  (if m.classModern then 5 else 0)

/-! Section: window reacquisition engine

Source: `reacquire_window_by_signature` (lines 679–706).  The environment
records the external collaborators the function calls: whether the
pywinauto binding loaded (`_pwa_ready`), the process-image query, the
result of resolving a handle to a live window and checking visibility
(`Desktop(backend="uia").window(handle=h)` + `is_visible()`, with any
exception during the attempt counting as not-visible), and the catalog
snapshot produced by `enum_windows_fast`.  A returned window is identified
by its handle. -/
structure ReacquireEnv where
  ready : Bool
  imgPath : Int → Option String
  visible : Int → Bool
  catalog : List CatalogEntry

/-- The body of the best-candidate loop (`if s > best_score: best, best_score = c, s`). -/
def scanStep (score : CatalogEntry → Int) (acc : Option CatalogEntry × Int)
    (c : CatalogEntry) : Option CatalogEntry × Int :=
  let s := score c
  if s > acc.2 then (some c, s) else acc

/-- The full scan: `best, best_score = None, -1` followed by the loop over
all candidates. -/
def scanBest (score : CatalogEntry → Int) (candidates : List CatalogEntry) :
    Option CatalogEntry × Int :=
  candidates.foldl (scanStep score) (none, -1)

/-- Source `reacquire_window_by_signature(sig)`.  Fast path: if the stored handle is
truthy and still resolves to a visible window, return it.  Otherwise scan the
catalog, and accept the best candidate only when its score is at least 30 and
it still resolves to a visible window. -/
def reacquire_window_by_signature (env : ReacquireEnv) (sig : WindowSignature) :
    Option Int :=
  if !env.ready then none
  else
    let fastHit :=
      match sig.handle with
      | some h => if h != 0 && env.visible h then some h else none
      | none => none
    match fastHit with
    | some h => some h
    | none =>
      let res := scanBest (fun c => score_candidate_dict env.imgPath c sig) env.catalog
      match res.1 with
      | some best =>
        if res.2 ≥ 30 then
          match best.handle with
          | some bh => if env.visible bh then some bh else none
          | none => none
        else none
      | none => none

/-! Section: viewport centering controller

Source: `_center_element_in_view` (lines 524–573).  The controller is
modelled by the sequence of corrective scroll operations it issues.  The
always-attempted `ScrollIntoView` capability invocation of step 1 and the
30 ms sleeps are not corrective scrolls; measurement of the two bounding
rectangles after the settle wait and after each correction round is
modelled by environment functions indexed by the number of completed
correction rounds.

The source computes vertical midpoints with exact float halving
(`(top + bottom) / 2`); to stay in `Int` the model works with twice the
offset, so the source's 10-pixel tolerance is the bound `|offsetTwice| ≤ 20`
and the 150-pixel step quantum is the divisor 300. -/
structure PyRect where
  top : Int
  bottom : Int
deriving DecidableEq

structure CenterEnv where
  ready : Bool
  hasScrollItem : Bool
  itemRect : Nat → PyRect
  containerRect : Nat → PyRect
  patternOk : Bool

/-- A corrective scroll operation issued by the loop: either the
UIA scroll pattern with a direction, `small=True` and a repeat count, or the
wheel fallback with a signed step count. -/
inductive ScrollOp where
  | pattern (direction : String) (small : Bool) (repeats : Nat)
  | wheel (steps : Int)
deriving DecidableEq

/-- Twice the signed offset `item_center_y - container_center_y` after `t`
correction rounds. -/
def offsetTwice (env : CenterEnv) (t : Nat) : Int :=
  ((env.itemRect t).top + (env.itemRect t).bottom) -
    ((env.containerRect t).top + (env.containerRect t).bottom)

/-- Source `step_for(dy)` = `max(1, min(5, int(abs(dy) / 150)))`, taking twice the
offset as argument. -/
def step_for (dyTwice : Int) : Nat := max 1 (min 5 (dyTwice.natAbs / 300))

/-- The up-to-3-round correction loop: stop when within tolerance, otherwise
issue a pattern scroll (or the wheel fallback when the pattern is
unavailable or throws), then re-measure. -/
def centerRounds (env : CenterEnv) : Nat → Nat → List ScrollOp
  | 0, _ => []
  | n + 1, t =>
    let offset := offsetTwice env t
    if |offset| ≤ 20 then []
    else
      let direction := if offset > 0 then "down" else "up"
      let repeats := step_for offset
      let op :=
        if env.patternOk then ScrollOp.pattern direction true repeats
        else ScrollOp.wheel (if offset > 0 then -(repeats : Int) else (repeats : Int))
      op :: centerRounds env n (t + 1)

/-- Source `_center_element_in_view`, as the list of corrective scrolls it issues:
nothing if the binding is not ready, nothing if the element lacks
`iface_scroll_item` (the `AttributeError` early return), nothing if the node
is already within the 10-pixel tolerance, otherwise the correction loop. -/
def center_element_in_view (env : CenterEnv) : List ScrollOp :=
  if !env.ready then []
  else if !env.hasScrollItem then []
  else if |offsetTwice env 0| ≤ 20 then []
  else centerRounds env 3 0

/-! Section: favorites — serialized dict nodes and deep copy

Source: the node dictionaries produced by `_serialize_fav_item` and consumed
by `_append_fav_node`, and `_deep_copy_node` inside `_paste_favorite_item`
(lines 1859–1911, 2210–2218).  A node dict always carries `type`, `name`;
`id` and `target` and `children` keys may be absent, which the `Option`
fields record.  The `sig` / `section_text` payload under `target` is opaque
to every operation modelled here and is represented by a `String`.

`uuid.uuid4()` is an external source of fresh identifiers, modelled as a
supply `Nat → String` consumed left to right; each embedded function that
draws from the supply threads the next unused index. -/
inductive FavNode where
  | mk (ntype : String) (idv : Option String) (name : String)
      (target : Option String) (children : Option (List FavNode))

def FavNode.ntype : FavNode → String
  | .mk t _ _ _ _ => t

def FavNode.idv : FavNode → Option String
  | .mk _ i _ _ _ => i

def FavNode.name : FavNode → String
  | .mk _ _ n _ _ => n

def FavNode.target : FavNode → Option String
  | .mk _ _ _ tg _ => tg

def FavNode.children : FavNode → Option (List FavNode)
  | .mk _ _ _ _ cs => cs

mutual
/-- Source `_deep_copy_node(node)`: shallow-copy the dict, overwrite `id` with a
fresh uuid, and rebuild `children` recursively when that key is present.
Returns the copy and the next unused supply index. -/
def deep_copy_node (supply : Nat → String) : Nat → FavNode → FavNode × Nat
  | k, .mk t _ n tg none => (.mk t (some (supply k)) n tg none, k + 1)
  | k, .mk t _ n tg (some cs) =>
    let r := deep_copy_list supply (k + 1) cs
    (.mk t (some (supply k)) n tg (some r.1), r.2)

/-- The `[_deep_copy_node(child) for child in ...]` comprehension. -/
def deep_copy_list (supply : Nat → String) : Nat → List FavNode → List FavNode × Nat
  | k, [] => ([], k)
  | k, c :: cs =>
    let r := deep_copy_node supply k c
    let rs := deep_copy_list supply r.2 cs
    (r.1 :: rs.1, rs.2)
end

mutual
/-- Number of nodes in a subtree (each consumes one uuid during deep copy). -/
def sizeNode : FavNode → Nat
  | .mk _ _ _ _ none => 1
  | .mk _ _ _ _ (some cs) => 1 + sizeList cs

def sizeList : List FavNode → Nat
  | [] => 0
  | c :: cs => sizeNode c + sizeList cs
end

mutual
/-- All `id` values present in a subtree, in pre-order. -/
def idsNode : FavNode → List String
  | .mk _ i _ _ none => i.toList
  | .mk _ i _ _ (some cs) => i.toList ++ idsList cs

def idsList : List FavNode → List String
  | [] => []
  | c :: cs => idsNode c ++ idsList cs
end

mutual
/-- Erase every `id` in a subtree (for comparing structure, names, types and
targets while ignoring identifiers). -/
def stripIdsNode : FavNode → FavNode
  | .mk t _ n tg none => .mk t none n tg none
  | .mk t _ n tg (some cs) => .mk t none n tg (some (stripIdsList cs))

def stripIdsList : List FavNode → List FavNode
  | [] => []
  | c :: cs => stripIdsNode c :: stripIdsList cs
end

/-! Section: favorites — the widget tree

`QTreeWidgetItem`s carry a display text, `ROLE_TYPE` ("group"/"section"),
a payload with an `id` and (for sections) a `target`, and an ordered child
list.  The invisible root is the top-level item list itself.  The mutable
Qt tree addresses items by object identity; the pure model addresses them
by the path of child indices from the root, so a mutation at one item
becomes a rebuild along its path. -/
inductive TreeItem where
  | mk (ntype : String) (name : String) (idv : String)
      (target : Option String) (children : List TreeItem)

def TreeItem.ntype : TreeItem → String
  | .mk t _ _ _ _ => t

def TreeItem.name : TreeItem → String
  | .mk _ n _ _ _ => n

def TreeItem.idv : TreeItem → String
  | .mk _ _ i _ _ => i

def TreeItem.target : TreeItem → Option String
  | .mk _ _ _ tg _ => tg

def TreeItem.children : TreeItem → List TreeItem
  | .mk _ _ _ _ cs => cs

def TreeItem.setChildren : TreeItem → List TreeItem → TreeItem
  | .mk t n i tg _, cs => .mk t n i tg cs

/-- The item addressed by a path of child indices (the empty path addresses
the invisible root, which is not an item). -/
def itemAt (F : List TreeItem) : List Nat → Option TreeItem
  | [] => none
  | [k] => F[k]?
  | k :: q =>
    match F[k]? with
    | none => none
    | some t => itemAt t.children q

/-- The child list addressed by a path of child indices (the empty path
addresses the root list). -/
def listAt (F : List TreeItem) : List Nat → Option (List TreeItem)
  | [] => some F
  | k :: q =>
    match F[k]? with
    | none => none
    | some t => listAt t.children q

/-- Whether the path `q` is an initial segment of the path `r`
(so the item at `q` is the item at `r` or one of its ancestors). -/
def isInitialSeg : List Nat → List Nat → Bool
  | [], _ => true
  | _ :: _, [] => false
  | a :: as, b :: bs => a == b && isInitialSeg as bs

mutual
/-- Decidable form of the §3 leaf invariant: every item whose `ROLE_TYPE` is
`"section"` has no children. -/
def sectionsLeavesItem : TreeItem → Bool
  | .mk t _ _ _ cs => (t != "section" || cs.isEmpty) && sectionsLeavesList cs

def sectionsLeavesList : List TreeItem → Bool
  | [] => true
  | c :: cs => sectionsLeavesItem c && sectionsLeavesList cs
end

/-! Section: favorites — drag-and-drop repair

Source: `FavoritesTree.dropEvent` (lines 875–902).  After Qt's own drop has
run, the handler repairs the case in which the dragged item ended up as a
direct child of the item it was dropped on and both are sections: it takes
the moved child out of the target and re-inserts it as the target's next
sibling inside the target's own parent (the invisible root when the target
is top-level).  The model receives the post-drop tree together with the
path of the parent list holding the drop target (`q`), the target's index
in that list (`j`) and the moved item's index among the target's children
(`i`). -/
def dropRepairTop (L : List TreeItem) (j i : Nat) : List TreeItem :=
  match L[j]? with
  | none => L
  | some tgt =>
    match tgt.children[i]? with
    | none => L
    | some src =>
      if src.ntype == "section" && tgt.ntype == "section" then
        let tgt' := tgt.setChildren (tgt.children.eraseIdx i)
        (L.set j tgt').insertIdx (j + 1) src
      else L

def dropRepair (F : List TreeItem) : List Nat → Nat → Nat → List TreeItem
  | [], j, i => dropRepairTop F j i
  | k :: q, j, i =>
    match F[k]? with
    | none => F
    | some t => F.set k (t.setChildren (dropRepair t.children q j i))

/-! Section: favorites — the three insert operations

Source: `_paste_favorite_item` (2195–2235), `_add_group` (2290–2298),
`_add_section_from_current` (2300–2341) and `_append_fav_node` (1876–1911).
All three compute their insertion parent the same way: the selected item,
redirected to its parent when it is a section, falling back to the
invisible root.  `_append_fav_node` turns a node dict into a widget item
appended at the end of the parent's child list; `dict.get("id",
str(uuid.uuid4()))` draws a uuid eagerly even when the `id` key is present,
so the model always advances the supply index there. -/
def redirectParent (F : List TreeItem) (sel : Option (List Nat)) : List Nat :=
  match sel with
  | none => []
  | some p =>
    match itemAt F p with
    | some t => if t.ntype == "section" then p.dropLast else p
    | none => p

mutual
/-- Source `_append_fav_node`, as construction of the appended item: the item built
from a node dict, and the next unused uuid-supply index. -/
def favToItem (supply : Nat → String) : Nat → FavNode → TreeItem × Nat
  | k, .mk t i n tg none =>
    let iv := i.getD (supply k)
    (TreeItem.mk t n iv tg [], k + 1)
  | k, .mk t i n tg (some cs) =>
    let iv := i.getD (supply k)
    let r := favToItemList supply (k + 1) cs
    (TreeItem.mk t n iv tg r.1, r.2)

def favToItemList (supply : Nat → String) : Nat → List FavNode → List TreeItem × Nat
  | k, [] => ([], k)
  | k, c :: cs =>
    let r := favToItem supply k c
    let rs := favToItemList supply r.2 cs
    (r.1 :: rs.1, rs.2)
end

/-- Append a new item at the end of the child list addressed by `path`
(`QTreeWidgetItem(parent)` attaches at the end). -/
def appendAt (F : List TreeItem) : List Nat → TreeItem → List TreeItem
  | [], n => F ++ [n]
  | k :: q, n =>
    match F[k]? with
    | none => F
    | some t => F.set k (t.setChildren (appendAt t.children q n))

/-- Source `_add_group`: append a fresh `new group` dict (type `group`, name `새 그룹`, empty children)
under the redirected parent. -/
def add_group (supply : Nat → String) (k : Nat) (F : List TreeItem)
    (sel : Option (List Nat)) : List TreeItem :=
  let node : FavNode := .mk "group" none "새 그룹" none (some [])
  appendAt F (redirectParent F sel) (favToItem supply k node).1

/-- Source `_add_section_from_current`: no-op without a connected window or when the
name dialog is cancelled or returns blank; otherwise append
`{"type": "section", "name": name, "target": target}` under the redirected
parent.  The connected-window state, the stripped dialog result and the
captured target payload are inputs from the GUI environment. -/
def add_section_from_current (supply : Nat → String) (k : Nat) (connected : Bool)
    (nameInput : Option String) (target : Option String) (F : List TreeItem)
    (sel : Option (List Nat)) : List TreeItem :=
  if !connected then F
  else
    match nameInput with
    | none => F
    | some nm =>
      let node : FavNode := .mk "section" none nm target none
      appendAt F (redirectParent F sel) (favToItem supply k node).1

/-- Source `_paste_favorite_item`: no-op without clipboard data; otherwise deep-copy
the clipboard node and append it under the redirected parent. -/
def paste_favorite_item (supply : Nat → String) (k : Nat)
    (clipboard : Option FavNode) (F : List TreeItem) (sel : Option (List Nat)) :
    List TreeItem :=
  match clipboard with
  | none => F
  | some clip =>
    let copied := deep_copy_node supply k clip
    appendAt F (redirectParent F sel) (favToItem supply copied.2 copied.1).1

/-! Section: favorites buffers — deletion

Source: `_delete_buffer` (lines 2045–2078).  The buffer list widget mirrors
the keys of `settings["favorites_buffers"]` (a Python dict, so an ordered
mapping with unique keys, modelled as an association list in insertion
order).  Inputs from the GUI: the currently selected buffer name (if any)
and the user's answer to the confirmation dialog. -/
structure BufferState where
  buffers : List (String × List FavNode)
  active : Option String

/-- Source `_delete_buffer`: no selection → no-op; at most one buffer in the list →
refuse; user answers No → no-op; otherwise remove the key and, if it was the
active buffer, fall back to the first remaining buffer (`None` if none
remain). -/
def delete_buffer (st : BufferState) (selected : Option String) (confirm : Bool) :
    BufferState :=
  match selected with
  | none => st
  | some nm =>
    if st.buffers.length ≤ 1 then st
    else if !confirm then st
    else
      let bufs := st.buffers.filter (fun p => p.1 != nm)
      let active :=
        if st.active == some nm then
          match bufs.head? with
          | some p => some p.1
          | none => none
        else st.active
      { buffers := bufs, active := active }

/-! Section: settings loading and the legacy migration

Source: `load_settings` and `DEFAULT_SETTINGS` (lines 76–109).  Only the
keys the favorites claims touch are modelled; file IO, JSON parsing and the
unrelated geometry keys are environment concerns.  `Option` marks key
presence in the parsed document. -/
structure SettingsDoc where
  favorites : Option (List FavNode)
  favorites_buffers : Option (List (String × List FavNode))
  active_buffer : Option String

/-- The default buffer name `"기본 즐겨찾기 버퍼"` from `DEFAULT_SETTINGS`. -/
def DEFAULT_BUFFER_NAME : String := "기본 즐겨찾기 버퍼"

/-- The migration branch of `load_settings`: when the legacy flat
`favorites` key is present and the new `favorites_buffers` key is not, wrap
the flat list into a single default-named buffer, make it active, and drop
the legacy key. -/
def migrate_legacy (d : SettingsDoc) : SettingsDoc :=
  if d.favorites.isSome && !d.favorites_buffers.isSome then
    { favorites := none
      favorites_buffers := some [(DEFAULT_BUFFER_NAME, d.favorites.getD [])]
      active_buffer := some DEFAULT_BUFFER_NAME }
  else d

/-- Source `load_settings` on a successfully parsed document: run the migration,
then merge over `DEFAULT_SETTINGS` (`settings = DEFAULT_SETTINGS.copy();
settings.update(data)`): keys present in the document win, missing keys take
the defaults, and `DEFAULT_SETTINGS` has no legacy `favorites` key. -/
def load_settings (d : SettingsDoc) : SettingsDoc :=
  let d := migrate_legacy d
  { favorites := d.favorites
    favorites_buffers := some (d.favorites_buffers.getD [(DEFAULT_BUFFER_NAME, [])])
    active_buffer := some (d.active_buffer.getD DEFAULT_BUFFER_NAME) }

/-! Claims. -/

theorem TreeItem.children_setChildren (t : TreeItem) (cs : List TreeItem) :
    (t.setChildren cs).children = cs := by
  cases t; rfl

theorem TreeItem.ntype_setChildren (t : TreeItem) (cs : List TreeItem) :
    (t.setChildren cs).ntype = t.ntype := by
  cases t; rfl

/-- The item list `[]` holds no item at any path. -/
theorem itemAt_nil : ∀ (b : List Nat), itemAt ([] : List TreeItem) b = none
  | [] => rfl
  | [_] => by simp [itemAt]
  | _ :: _ :: _ => by simp [itemAt]

/-- A path initial segment is a list-append initial segment. -/
theorem isInitialSeg_exists : ∀ (q r : List Nat), isInitialSeg q r = true →
    ∃ b, r = q ++ b
  | [], r, _ => ⟨r, rfl⟩
  | a :: as, [], h => by simp [isInitialSeg] at h
  | a :: as, b :: bs, h => by
    simp only [isInitialSeg, Bool.and_eq_true, beq_iff_eq] at h
    obtain ⟨rfl, hseg⟩ := h
    obtain ⟨c, rfl⟩ := isInitialSeg_exists as bs hseg
    exact ⟨c, rfl⟩

/-- Walking past an item continues inside its children. -/
theorem itemAt_append : ∀ (q : List Nat) (F : List TreeItem) (t : TreeItem)
    (b : List Nat), itemAt F q = some t → b ≠ [] →
    itemAt F (q ++ b) = itemAt t.children b
  | [], F, t, b, h, _ => by simp [itemAt] at h
  | [k], F, t, b, h, hb => by
    simp only [itemAt] at h
    cases b with
    | nil => exact absurd rfl hb
    | cons b1 bs => simp [itemAt, h]
  | k :: k1 :: q', F, t, b, h, hb => by
    simp only [itemAt] at h
    cases hF : F[k]? with
    | none => rw [hF] at h; cases h
    | some u =>
      rw [hF] at h
      have hrw : (k :: k1 :: q') ++ b = k :: ((k1 :: q') ++ b) := rfl
      rw [hrw]
      have hne : (k1 :: q') ++ b = k1 :: (q' ++ b) := rfl
      rw [hne]
      simp only [itemAt, hF]
      have := itemAt_append (k1 :: q') u.children t b h hb
      simpa using this

/-- Membership form of the decidable leaf invariant. -/
theorem sectionsLeavesList_mem : ∀ (F : List TreeItem) (t : TreeItem),
    sectionsLeavesList F = true → t ∈ F → sectionsLeavesItem t = true
  | [], _, _, hm => by cases hm
  | c :: cs, t, h, hm => by
    simp only [sectionsLeavesList, Bool.and_eq_true] at h
    rcases List.mem_cons.mp hm with rfl | hm
    · exact h.1
    · exact sectionsLeavesList_mem cs t h.2 hm

/-- Under the leaf invariant, every section item reachable in the tree has
no children. -/
theorem sections_children_nil : ∀ (p : List Nat) (F : List TreeItem) (t : TreeItem),
    sectionsLeavesList F = true → itemAt F p = some t → t.ntype = "section" →
    t.children = []
  | [], F, t, _, h, _ => by simp [itemAt] at h
  | [k], F, t, hF, h, hsec => by
    simp only [itemAt] at h
    obtain ⟨hlen, hget⟩ := List.getElem?_eq_some.mp h
    have hmem : t ∈ F := hget ▸ List.getElem_mem hlen
    have hitem := sectionsLeavesList_mem F t hF hmem
    cases t with
    | mk ty nm iv tg cs =>
      simp only [sectionsLeavesItem, Bool.and_eq_true, Bool.or_eq_true] at hitem
      simp only [TreeItem.ntype] at hsec
      rcases hitem.1 with hne | hemp
      · rw [hsec] at hne; simp at hne
      · simpa [TreeItem.children] using List.isEmpty_iff.mp (by simpa using hemp)
  | k :: k1 :: q', F, t, hF, h, hsec => by
    simp only [itemAt] at h
    cases hu : F[k]? with
    | none => rw [hu] at h; cases h
    | some u =>
      rw [hu] at h
      obtain ⟨hlen, hget⟩ := List.getElem?_eq_some.mp hu
      have hmem : u ∈ F := hget ▸ List.getElem_mem hlen
      have hitem := sectionsLeavesList_mem F u hF hmem
      have hchildren : sectionsLeavesList u.children = true := by
        cases u with
        | mk ty nm iv tg cs =>
          simp only [sectionsLeavesItem, Bool.and_eq_true] at hitem
          simpa [TreeItem.children] using hitem.2
      exact sections_children_nil (k1 :: q') u.children t hchildren (by simpa using h) hsec

/-- Appending a new child at the list addressed by `r` leaves every item
whose path is not an initial segment of `r` exactly as it was. -/
theorem itemAt_appendAt : ∀ (q : List Nat) (F : List TreeItem) (r : List Nat)
    (x t : TreeItem), itemAt F q = some t → isInitialSeg q r = false →
    itemAt (appendAt F r x) q = some t
  | [], F, r, x, t, h, _ => by simp [itemAt] at h
  | [k], F, r, x, t, h, hseg => by
    simp only [itemAt] at h
    cases r with
    | nil =>
      have hlen : k < F.length := (List.getElem?_eq_some.mp h).1
      simp only [appendAt, itemAt]
      rw [List.getElem?_append_left hlen]
      exact h
    | cons k0 r' =>
      have hk : ¬ (k0 = k) := by
        simp only [isInitialSeg, Bool.and_eq_true, beq_iff_eq] at hseg
        intro hkk
        rw [hkk] at hseg
        simp [isInitialSeg] at hseg
      simp only [appendAt]
      cases hF : F[k0]? with
      | none => simp [itemAt, h]
      | some t0 =>
        simp only [itemAt]
        rw [List.getElem?_set, if_neg hk]
        exact h
  | k :: k1 :: q', F, r, x, t, h, hseg => by
    simp only [itemAt] at h
    cases hu : F[k]? with
    | none => rw [hu] at h; cases h
    | some u =>
      rw [hu] at h
      cases r with
      | nil =>
        have hlen : k < F.length := (List.getElem?_eq_some.mp hu).1
        simp only [appendAt, itemAt]
        rw [List.getElem?_append_left hlen, hu]
        exact h
      | cons k0 r' =>
        simp only [appendAt]
        cases hF : F[k0]? with
        | none => simp only [itemAt, hu]; exact h
        | some t0 =>
          by_cases hk : k = k0
          · subst hk
            have hu0 : u = t0 := by rw [hu] at hF; cases hF; rfl
            subst hu0
            have hseg' : isInitialSeg (k1 :: q') r' = false := by
              simp only [isInitialSeg, beq_self_eq_true, Bool.true_and] at hseg
              exact hseg
            have hlen : k < F.length := (List.getElem?_eq_some.mp hu).1
            simp only [itemAt]
            rw [List.getElem?_set, if_pos rfl, if_pos hlen]
            have := itemAt_appendAt (k1 :: q') u.children r' x t h hseg'
            simpa [TreeItem.children_setChildren] using this
          · simp only [itemAt]
            rw [List.getElem?_set, if_neg (fun he => hk he.symm), hu]
            exact h

/-- C10 (implicit): when the selected tree item is a Section node, the
add-group, add-section and paste operations all redirect their insertion
target to that Section's parent list (`p.dropLast`, the root list when the
Section is top-level), and — under the documented invariant that sections
are leaves — every Section item present in the tree is left exactly as it
was by each of the three operations: no Section node gains a child. -/
theorem claim_C10_section_insert_redirect (supply : Nat → String) (k : Nat)
    (F : List TreeItem) (p : List Nat) (s : TreeItem)
    (clip : FavNode) (nm : String) (target : Option String)
    (hsl : sectionsLeavesList F = true)
    (hp : itemAt F p = some s) (hsec : s.ntype = "section") :
    redirectParent F (some p) = p.dropLast ∧
    (∀ q t, itemAt F q = some t → t.ntype = "section" →
      itemAt (add_group supply k F (some p)) q = some t) ∧
    (∀ q t, itemAt F q = some t → t.ntype = "section" →
      itemAt (add_section_from_current supply k true (some nm) target F (some p)) q
        = some t) ∧
    (∀ q t, itemAt F q = some t → t.ntype = "section" →
      itemAt (paste_favorite_item supply k (some clip) F (some p)) q = some t) := by
  have hredir : redirectParent F (some p) = p.dropLast := by
    simp [redirectParent, hp, hsec]
  have hpres : ∀ (x : TreeItem) (q : List Nat) (t : TreeItem),
      itemAt F q = some t → t.ntype = "section" →
      itemAt (appendAt F p.dropLast x) q = some t := by
    intro x q t hq ht
    apply itemAt_appendAt q F p.dropLast x t hq
    cases hb : isInitialSeg q p.dropLast
    · rfl
    · exfalso
      obtain ⟨b0, hb0⟩ := isInitialSeg_exists q p.dropLast hb
      have hpne : p ≠ [] := by
        intro he
        rw [he] at hp
        simp [itemAt] at hp
      have hql : p = q ++ (b0 ++ [p.getLast hpne]) := by
        conv_lhs => rw [← List.dropLast_append_getLast hpne]
        rw [hb0, List.append_assoc]
      have hnil : t.children = [] := sections_children_nil q F t hsl hq ht
      have hstep := itemAt_append q F t (b0 ++ [p.getLast hpne]) hq (by simp)
      rw [← hql] at hstep
      rw [hstep, hnil, itemAt_nil] at hp
      cases hp
  refine ⟨hredir, ?_, ?_, ?_⟩
  · intro q t hq ht
    simpa [add_group, hredir] using hpres _ q t hq ht
  · intro q t hq ht
    simpa [add_section_from_current, hredir] using hpres _ q t hq ht
  · intro q t hq ht
    simpa [paste_favorite_item, hredir] using hpres _ q t hq ht

/-- Witness for C10: selecting the section nested inside a top-level group
redirects insertion to the group's child list. -/
theorem claim_C10_section_insert_redirect_witness :
    redirectParent
      [TreeItem.mk "group" "g" "gid" none [TreeItem.mk "section" "s" "sid" none []]]
      (some [0, 0]) = [0] :=
  (claim_C10_section_insert_redirect (fun _ => "u") 0
    [TreeItem.mk "group" "g" "gid" none [TreeItem.mk "section" "s" "sid" none []]]
    [0, 0] (TreeItem.mk "section" "s" "sid" none [])
    (FavNode.mk "section" none "c" none none) "n" none
    rfl rfl rfl).1

/-- The scorer's accumulation pattern, abstracted over the truth of its ten
conditions, equals the flat weight sum. -/
theorem score_accum_eq (b1 b2 b3 b4 b5 b6 g s7 b8 b9 b10 : Bool) :
    (let score : Int := 0
     let score := if b1 then score + 100 else score
     let score := if b2 then score + 50 else score
     let score := if b3 then score + 50 else score
     let score := if b4 then score + 25 else score
     let score := if b5 then score + 10 else score
     let score := if b6 then score + 8 else score
     let score :=
       if g then
         if s7 then score + 6
         else
           let score := if b8 then score + 4 else score
           let score := if b9 then score + 4 else score
           score
       else score
     let score := if b10 then score + 5 else score
     score) =
    (if b1 then 100 else 0) + (if b2 then 50 else 0) + (if b3 then 50 else 0) +
    (if b4 then 25 else 0) + (if b5 then 10 else 0) + (if b6 then 8 else 0) +
    (if g && s7 then 6 else (if g && b8 then 4 else 0) + (if g && b9 then 4 else 0)) +
    (if b10 then 5 else 0) := by
  revert b1 b2 b3 b4 b5 b6 g s7 b8 b9 b10
  decide

/-- `_score_candidate_dict` computes exactly the weight sum of its condition
vector. -/
theorem score_eq_weightSum (env : Int → Option String) (c : CatalogEntry)
    (sig : WindowSignature) :
    score_candidate_dict env c sig = weightSum (conds env c sig) := by
  simp only [score_candidate_dict, conds, weightSum]
  exact score_accum_eq _ _ _ _ _ _ _ _ _ _ _

/-- The weight sum is monotone in every condition except the
previous-title-substring condition (held fixed here): the +6 branch replaces
a possible +4+4, so that condition alone is not monotone. -/
theorem weightSum_mono (m m' : MatchConds) (hle : MatchConds.le m m')
    (hps : m.prevSub = m'.prevSub) : weightSum m ≤ weightSum m' := by
  obtain ⟨h1, h2, h3, h4, h5, h6, _, h8, h9, h10⟩ := hle
  unfold weightSum
  have step : ∀ (a b : Bool) (w : Int), 0 ≤ w → (a → b = true) →
      (if a then w else 0) ≤ (if b then w else 0) := by
    intro a b w hw hab
    cases a
    · cases b <;> simp [hw]
    · rw [hab rfl]
  rw [hps]
  have hprev : (if m'.prevSub then (6 : Int)
      else (if m.stackEn then 4 else 0) + (if m.stackKo then 4 else 0)) ≤
      (if m'.prevSub then 6
      else (if m'.stackEn then 4 else 0) + (if m'.stackKo then 4 else 0)) := by
    cases m'.prevSub
    · simp only [Bool.false_eq_true, if_false]
      exact add_le_add (step _ _ _ (by norm_num) h8) (step _ _ _ (by norm_num) h9)
    · simp
  exact add_le_add (add_le_add (add_le_add (add_le_add (add_le_add (add_le_add
    (add_le_add (step _ _ _ (by norm_num) h1) (step _ _ _ (by norm_num) h2))
    (step _ _ _ (by norm_num) h3)) (step _ _ _ (by norm_num) h4))
    (step _ _ _ (by norm_num) h5)) (step _ _ _ (by norm_num) h6)) hprev)
    (step _ _ _ (by norm_num) h10)

/-- C4: the score returned by `_score_candidate_dict` equals the sum of the
independently-checked additive weights the spec lists: +100 exact handle
match, +50 resolved executable basename equal to the fingerprint's, +50
basename contains the tracked process name, +25 tracked keyword in the
title (case-insensitive), +10 exact class-name match, +8 exact process-id
match, +6 previous title a substring of the candidate title (else +4 per
keyword variant contained in both titles, at most +8), and +5 for the
modern-shell frame class.  The condition vector `conds` records each test
exactly as the source performs it, including the truthiness guards on the
fingerprint fields. -/
theorem claim_C4_score_is_weight_sum (env : Int → Option String)
    (c : CatalogEntry) (sig : WindowSignature) :
    score_candidate_dict env c sig = weightSum (conds env c sig) :=
  score_eq_weightSum env c sig

/-- C1 counterexample: the claim "making one additional listed condition
true (all others held fixed) never decreases the returned score" is false.
With fingerprint title `"onenote 원노트 a"`, candidate title
`"onenote 원노트 b"` satisfies the two keyword-stack conditions (+4+4);
changing the candidate title to `"onenote 원노트 a"` additionally satisfies
the previous-title-substring condition while every other condition keeps its
truth value, yet the score drops from 33 to 31. -/
theorem claim_C1_counterexample :
    MatchConds.le
      (conds (fun _ => none)
        { handle := none, title := some "onenote 원노트 b", class_name := none, pid := none }
        { handle := none, pid := none, class_name := none,
          title := some "onenote 원노트 a", exe_path := none, exe_name := none })
      (conds (fun _ => none)
        { handle := none, title := some "onenote 원노트 a", class_name := none, pid := none }
        { handle := none, pid := none, class_name := none,
          title := some "onenote 원노트 a", exe_path := none, exe_name := none }) ∧
    (conds (fun _ => none)
        { handle := none, title := some "onenote 원노트 b", class_name := none, pid := none }
        { handle := none, pid := none, class_name := none,
          title := some "onenote 원노트 a", exe_path := none, exe_name := none }).prevSub
      = false ∧
    (conds (fun _ => none)
        { handle := none, title := some "onenote 원노트 a", class_name := none, pid := none }
        { handle := none, pid := none, class_name := none,
          title := some "onenote 원노트 a", exe_path := none, exe_name := none }).prevSub
      = true ∧
    score_candidate_dict (fun _ => none)
        { handle := none, title := some "onenote 원노트 a", class_name := none, pid := none }
        { handle := none, pid := none, class_name := none,
          title := some "onenote 원노트 a", exe_path := none, exe_name := none } <
      score_candidate_dict (fun _ => none)
        { handle := none, title := some "onenote 원노트 b", class_name := none, pid := none }
        { handle := none, pid := none, class_name := none,
          title := some "onenote 원노트 a", exe_path := none, exe_name := none } := by
  refine ⟨by decide, by decide, by decide, by decide⟩

/-- C1 amended: the score is deterministic (it is a pure function of the
candidate, the fingerprint and the resolved executable path), and it is
monotonic in every listed condition except the previous-title-substring
condition: for any two candidate/fingerprint/environment triples whose
condition vectors are pointwise ordered and agree on the
previous-title-substring condition, the score never decreases.  (Turning
that one condition on can lower the score by 2, from the stacked +4+4 to
+6, as the counterexample shows.) -/
theorem claim_C1_amended_monotone (env env' : Int → Option String)
    (c c' : CatalogEntry) (sig sig' : WindowSignature)
    (hle : MatchConds.le (conds env c sig) (conds env' c' sig'))
    (hps : (conds env c sig).prevSub = (conds env' c' sig').prevSub) :
    score_candidate_dict env c sig ≤ score_candidate_dict env' c' sig' := by
  rw [score_eq_weightSum, score_eq_weightSum]
  exact weightSum_mono _ _ hle hps

/-- Witness for the amended C1: adding the title-keyword condition (+25)
never decreases the score. -/
theorem claim_C1_amended_monotone_witness :
    MatchConds.le
      (conds (fun _ => none)
        { handle := none, title := none, class_name := none, pid := none }
        { handle := none, pid := none, class_name := none, title := none,
          exe_path := none, exe_name := none })
      (conds (fun _ => none)
        { handle := none, title := some "onenote", class_name := none, pid := none }
        { handle := none, pid := none, class_name := none, title := none,
          exe_path := none, exe_name := none }) ∧
    score_candidate_dict (fun _ => none)
        { handle := none, title := none, class_name := none, pid := none }
        { handle := none, pid := none, class_name := none, title := none,
          exe_path := none, exe_name := none } ≤
      score_candidate_dict (fun _ => none)
        { handle := none, title := some "onenote", class_name := none, pid := none }
        { handle := none, pid := none, class_name := none, title := none,
          exe_path := none, exe_name := none } :=
  ⟨by decide, claim_C1_amended_monotone _ _ _ _ _ _ (by decide) (by decide)⟩

/-- C3: for every fingerprint that carries a (truthy) handle, if direct
lookup by that handle yields an existing, visible window, reacquisition
returns that window immediately; the catalog is universally quantified and
never consulted, so no catalog entry is enumerated or scored. -/
theorem claim_C3_fast_path (imgPath : Int → Option String) (vis : Int → Bool)
    (catalog : List CatalogEntry) (sig : WindowSignature) (h : Int)
    (hh : sig.handle = some h) (hz : h ≠ 0) (hv : vis h = true) :
    reacquire_window_by_signature ⟨true, imgPath, vis, catalog⟩ sig = some h := by
  simp [reacquire_window_by_signature, hh, hv, hz]

/-- Witness for C3 at a concrete fingerprint, visibility map and catalog. -/
theorem claim_C3_fast_path_witness :
    reacquire_window_by_signature
      ⟨true, fun _ => none, fun _ => true,
        [{ handle := some 7, title := some "x", class_name := some "c", pid := some 9 }]⟩
      { handle := some 5, pid := none, class_name := none, title := none,
        exe_path := none, exe_name := none } = some 5 :=
  claim_C3_fast_path _ _ _ _ 5 rfl (by decide) rfl

/-- Characterization of the best-candidate loop for any starting
accumulator: either no candidate beats the accumulator and it is returned
unchanged, or the result is the first candidate attaining the maximum score
(everything before it scores strictly less, everything after scores no
more). -/
theorem scanBest_spec (score : CatalogEntry → Int) :
    ∀ (cs : List CatalogEntry) (acc : Option CatalogEntry × Int),
      (cs.foldl (scanStep score) acc = acc ∧ ∀ c ∈ cs, score c ≤ acc.2) ∨
      (∃ l₁ best l₂, cs = l₁ ++ best :: l₂ ∧
        cs.foldl (scanStep score) acc = (some best, score best) ∧
        acc.2 < score best ∧ (∀ d ∈ l₁, score d < score best) ∧
        (∀ d ∈ l₂, score d ≤ score best)) := by
  intro cs
  induction cs with
  | nil => exact fun acc => Or.inl ⟨rfl, by simp⟩
  | cons c cs ih =>
    intro acc
    rw [List.foldl_cons]
    by_cases hc : score c > acc.2
    · have hstep : scanStep score acc c = (some c, score c) := by
        simp [scanStep, hc]
      rw [hstep]
      rcases ih (some c, score c) with ⟨heq, hall⟩ | ⟨l₁, b, l₂, hsplit, heq, hgt, hbef, haft⟩
      · exact Or.inr ⟨[], c, cs, rfl, heq, hc, by simp, fun d hd => hall d hd⟩
      · refine Or.inr ⟨c :: l₁, b, l₂, by rw [hsplit, List.cons_append], heq,
          lt_trans hc hgt, ?_, haft⟩
        intro d hd
        rcases List.mem_cons.mp hd with hd | hd
        · exact hd ▸ hgt
        · exact hbef d hd
    · have hstep : scanStep score acc c = acc := by
        simp only [scanStep]
        rw [if_neg hc]
      rw [hstep]
      rcases ih acc with ⟨heq, hall⟩ | ⟨l₁, b, l₂, hsplit, heq, hgt, hbef, haft⟩
      · refine Or.inl ⟨heq, ?_⟩
        intro d hd
        rcases List.mem_cons.mp hd with hd | hd
        · exact hd ▸ le_of_not_lt hc
        · exact hall d hd
      · refine Or.inr ⟨c :: l₁, b, l₂, by rw [hsplit, List.cons_append], heq, hgt, ?_, haft⟩
        intro d hd
        rcases List.mem_cons.mp hd with hd | hd
        · exact hd ▸ lt_of_le_of_lt (le_of_not_lt hc) hgt
        · exact hbef d hd

/-- When the binding is ready and the fast path cannot return (the stored
handle is falsy, or no longer visible), `reacquire_window_by_signature`
reduces to the scan-accept-verify tail. -/
theorem reacquire_scan_eq (env : ReacquireEnv) (sig : WindowSignature)
    (hr : env.ready = true)
    (hfast : ∀ h : Int, sig.handle = some h → h = 0 ∨ env.visible h = false) :
    reacquire_window_by_signature env sig =
      (match (scanBest (fun c => score_candidate_dict env.imgPath c sig) env.catalog).1 with
        | some best =>
          if (scanBest (fun c => score_candidate_dict env.imgPath c sig) env.catalog).2 ≥ 30 then
            match best.handle with
            | some bh => if env.visible bh then some bh else none
            | none => none
          else none
        | none => none) := by
  unfold reacquire_window_by_signature
  rw [hr]
  cases hh : sig.handle with
  | none => simp
  | some h =>
    rcases hfast h hh with h0 | hv
    · simp [h0]
    · simp [hv]

/-- C2: when the fast path does not return (fingerprint handle falsy, or its
window no longer visible), reacquisition scores the whole catalog and keeps
the maximum-scoring entry with ties resolved first-seen-wins — the kept
entry is the first to attain the maximum, a later equal score never
replacing it — and the call returns none whenever the best score is below
30. -/
theorem claim_C2_full_scan_best_match (env : ReacquireEnv) (sig : WindowSignature)
    (hr : env.ready = true)
    (hfast : ∀ h : Int, sig.handle = some h → h = 0 ∨ env.visible h = false) :
    ((scanBest (fun c => score_candidate_dict env.imgPath c sig) env.catalog = (none, -1) ∧
        ∀ c ∈ env.catalog, score_candidate_dict env.imgPath c sig ≤ -1) ∨
      (∃ l₁ best l₂, env.catalog = l₁ ++ best :: l₂ ∧
        scanBest (fun c => score_candidate_dict env.imgPath c sig) env.catalog =
          (some best, score_candidate_dict env.imgPath best sig) ∧
        (∀ d ∈ l₁, score_candidate_dict env.imgPath d sig <
          score_candidate_dict env.imgPath best sig) ∧
        (∀ d ∈ l₂, score_candidate_dict env.imgPath d sig ≤
          score_candidate_dict env.imgPath best sig))) ∧
    ((scanBest (fun c => score_candidate_dict env.imgPath c sig) env.catalog).2 < 30 →
      reacquire_window_by_signature env sig = none) := by
  have hspec := scanBest_spec (fun c => score_candidate_dict env.imgPath c sig)
    env.catalog (none, -1)
  constructor
  · rcases hspec with ⟨heq, hall⟩ | ⟨l₁, b, l₂, hsplit, heq, _, hbef, haft⟩
    · exact Or.inl ⟨heq, hall⟩
    · exact Or.inr ⟨l₁, b, l₂, hsplit, heq, hbef, haft⟩
  · intro hlt
    rw [reacquire_scan_eq env sig hr hfast]
    rcases hspec with ⟨heq, _⟩ | ⟨l₁, b, l₂, _, heq, _, _, _⟩
    · have heq' : scanBest (fun c => score_candidate_dict env.imgPath c sig) env.catalog
          = (none, -1) := heq
      simp [heq']
    · have heq' : scanBest (fun c => score_candidate_dict env.imgPath c sig) env.catalog
          = (some b, score_candidate_dict env.imgPath b sig) := heq
      rw [heq'] at hlt
      have hlt' : score_candidate_dict env.imgPath b sig < 30 := hlt
      simp [heq', not_le.mpr hlt']

/-- Witness for C2: a one-entry catalog whose entry scores 0 (< 30) makes
reacquisition fail. -/
theorem claim_C2_full_scan_best_match_witness :
    reacquire_window_by_signature
      ⟨true, fun _ => none, fun _ => false,
        [{ handle := some 1, title := some "x", class_name := some "y", pid := none }]⟩
      { handle := none, pid := none, class_name := none, title := none,
        exe_path := none, exe_name := none } = none :=
  (claim_C2_full_scan_best_match _ _ rfl (fun _ hh => by simp at hh)).2 (by decide)

/-- C6: whenever the measured offset is already within the 10-pixel
tolerance (`|offsetTwice| ≤ 20` for twice the offset), `_center_element_in_view`
issues no corrective scroll operation at all. -/
theorem claim_C6_center_idempotent (env : CenterEnv)
    (hc : |offsetTwice env 0| ≤ 20) : center_element_in_view env = [] := by
  unfold center_element_in_view
  rcases env.ready with _ | _ <;> rcases env.hasScrollItem with _ | _ <;> simp [hc]

/-- Witness for C6 at a concrete environment (offset 4 ≤ tolerance). -/
theorem claim_C6_center_idempotent_witness :
    |offsetTwice ⟨true, true, fun _ => ⟨0, 10⟩, fun _ => ⟨0, 6⟩, true⟩ 0| ≤ 20 ∧
    center_element_in_view ⟨true, true, fun _ => ⟨0, 10⟩, fun _ => ⟨0, 6⟩, true⟩ = [] :=
  ⟨by decide, claim_C6_center_idempotent _ (by decide)⟩

/-- Insertion at position `n` leaves positions before `n` unchanged. -/
theorem getElem?_insertIdx_lt {α : Type} (a : α) :
    ∀ (n k : Nat) (l : List α), k < n → (l.insertIdx n a)[k]? = l[k]? := by
  intro n
  induction n with
  | zero => intro k l hk; exact absurd hk (by omega)
  | succ n ih =>
    intro k l hk
    cases l with
    | nil => rw [List.insertIdx_succ_nil]
    | cons x xs =>
      cases k with
      | zero => rw [List.insertIdx_succ_cons, List.getElem?_cons_zero, List.getElem?_cons_zero]
      | succ k =>
        rw [List.insertIdx_succ_cons]
        simp only [List.getElem?_cons_succ]
        exact ih k xs (by omega)

/-- Insertion at position `n ≤ length` puts the element at position `n`. -/
theorem getElem?_insertIdx_self {α : Type} (a : α) :
    ∀ (n : Nat) (l : List α), n ≤ l.length → (l.insertIdx n a)[n]? = some a := by
  intro n
  induction n with
  | zero => intro l _; rw [List.insertIdx_zero, List.getElem?_cons_zero]
  | succ n ih =>
    intro l hn
    cases l with
    | nil => simp at hn
    | cons x xs =>
      rw [List.insertIdx_succ_cons]
      simp only [List.getElem?_cons_succ]
      exact ih xs (by simpa using hn)

/-- The repair transformation at the end of `dropEvent`, applied at the
parent list addressed by `q`: positions outside the traversal are untouched
and the repaired list replaces the one at `q`. -/
theorem dropRepair_listAt (j i : Nat) :
    ∀ (q : List Nat) (F L : List TreeItem), listAt F q = some L →
      listAt (dropRepair F q j i) q = some (dropRepairTop L j i) := by
  intro q
  induction q with
  | nil =>
    intro F L hL
    simp only [listAt] at hL
    cases hL
    rfl
  | cons k q ih =>
    intro F L hL
    simp only [listAt] at hL
    cases ht : F[k]? with
    | none => rw [ht] at hL; cases hL
    | some t =>
      rw [ht] at hL
      have hk : k < F.length := (List.getElem?_eq_some.mp ht).1
      have hset : (F.set k (t.setChildren (dropRepair t.children q j i)))[k]? =
          some (t.setChildren (dropRepair t.children q j i)) := by
        rw [List.getElem?_set]
        simp [hk]
      simp only [dropRepair, ht, listAt, hset, TreeItem.children_setChildren]
      exact ih t.children L hL

/-- C5: whenever a drag-and-drop leaves a Section item (`src`, at child
index `i`) as a direct child of another Section item (`tgt`, at index `j` of
the sibling list addressed by path `q`, at any depth), the `dropEvent`
repair detaches the moved node from the illegal Section parent and
reinserts it immediately after that Section in the Section's own parent
list (the root list when `q = []`): in the repaired sibling list the former
parent sits at index `j` with the moved child removed from its children,
and the moved Section sits beside it at index `j + 1` — siblings, not
parent and child. -/
theorem claim_C5_section_drop_repair (F : List TreeItem) (q : List Nat)
    (j i : Nat) (L : List TreeItem) (tgt src : TreeItem)
    (hL : listAt F q = some L) (hj : L[j]? = some tgt)
    (hi : tgt.children[i]? = some src)
    (hsrc : src.ntype = "section") (htgt : tgt.ntype = "section") :
    listAt (dropRepair F q j i) q =
      some ((L.set j (tgt.setChildren (tgt.children.eraseIdx i))).insertIdx (j + 1) src) ∧
    ((L.set j (tgt.setChildren (tgt.children.eraseIdx i))).insertIdx (j + 1) src)[j]? =
      some (tgt.setChildren (tgt.children.eraseIdx i)) ∧
    ((L.set j (tgt.setChildren (tgt.children.eraseIdx i))).insertIdx (j + 1) src)[j + 1]? =
      some src := by
  have hjlen : j < L.length := (List.getElem?_eq_some.mp hj).1
  have htop : dropRepairTop L j i =
      (L.set j (tgt.setChildren (tgt.children.eraseIdx i))).insertIdx (j + 1) src := by
    simp only [dropRepairTop, hj, hi, hsrc, htgt]
    simp
  refine ⟨?_, ?_, ?_⟩
  · rw [dropRepair_listAt j i q F L hL, htop]
  · rw [getElem?_insertIdx_lt _ (j + 1) j _ (by omega), List.getElem?_set]
    simp [hjlen]
  · rw [getElem?_insertIdx_self _ (j + 1) _ (by simp only [List.length_set]; omega)]

/-- Witness for C5: a section dropped onto a top-level section becomes its
next sibling at the root. -/
theorem claim_C5_section_drop_repair_witness :
    listAt
      (dropRepair
        [TreeItem.mk "section" "A" "1" none [TreeItem.mk "section" "B" "2" none []]]
        [] 0 0) [] =
      some [TreeItem.mk "section" "A" "1" none [], TreeItem.mk "section" "B" "2" none []] :=
  (claim_C5_section_drop_repair
    [TreeItem.mk "section" "A" "1" none [TreeItem.mk "section" "B" "2" none []]]
    [] 0 0
    [TreeItem.mk "section" "A" "1" none [TreeItem.mk "section" "B" "2" none []]]
    (TreeItem.mk "section" "A" "1" none [TreeItem.mk "section" "B" "2" none []])
    (TreeItem.mk "section" "B" "2" none [])
    rfl rfl rfl rfl rfl).1

mutual
/-- Deep copy consumes exactly one fresh uuid per node of the subtree. -/
theorem deep_copy_node_snd (supply : Nat → String) :
    ∀ (k : Nat) (x : FavNode), (deep_copy_node supply k x).2 = k + sizeNode x
  | k, .mk t i n tg none => by simp [deep_copy_node, sizeNode]
  | k, .mk t i n tg (some cs) => by
    simp only [deep_copy_node, sizeNode, deep_copy_list_snd supply (k + 1) cs]
    omega

theorem deep_copy_list_snd (supply : Nat → String) :
    ∀ (k : Nat) (cs : List FavNode), (deep_copy_list supply k cs).2 = k + sizeList cs
  | k, [] => by simp [deep_copy_list, sizeList]
  | k, c :: cs => by
    simp only [deep_copy_list, sizeList, deep_copy_node_snd supply k c,
      deep_copy_list_snd supply (k + sizeNode c) cs]
    omega
end

mutual
/-- The ids of a deep copy are precisely the uuids drawn from the supply, in
pre-order. -/
theorem deep_copy_node_ids (supply : Nat → String) :
    ∀ (k : Nat) (x : FavNode),
      idsNode (deep_copy_node supply k x).1 = (List.range' k (sizeNode x)).map supply
  | k, .mk t i n tg none => by
    simp [deep_copy_node, sizeNode, idsNode, List.range'_succ]
  | k, .mk t i n tg (some cs) => by
    simp only [deep_copy_node, sizeNode, idsNode, Option.toList_some,
      deep_copy_list_ids supply (k + 1) cs]
    rw [Nat.add_comm 1 (sizeList cs), List.range'_succ]
    simp

theorem deep_copy_list_ids (supply : Nat → String) :
    ∀ (k : Nat) (cs : List FavNode),
      idsList (deep_copy_list supply k cs).1 = (List.range' k (sizeList cs)).map supply
  | k, [] => by simp [deep_copy_list, sizeList, idsList]
  | k, c :: cs => by
    simp only [deep_copy_list, idsList, sizeList,
      deep_copy_node_ids supply k c, deep_copy_node_snd supply k c,
      deep_copy_list_ids supply (k + sizeNode c) cs]
    rw [← List.map_append]
    congr 1
    have h := List.range'_append k (sizeNode c) (sizeList cs) 1
    rw [one_mul] at h
    rw [h, Nat.add_comm (sizeList cs) (sizeNode c)]
end

mutual
/-- Deep copy preserves everything except ids: stripping the ids of the copy
yields the stripped original (same shape, types, names and targets). -/
theorem deep_copy_node_strip (supply : Nat → String) :
    ∀ (k : Nat) (x : FavNode),
      stripIdsNode (deep_copy_node supply k x).1 = stripIdsNode x
  | k, .mk t i n tg none => by simp [deep_copy_node, stripIdsNode]
  | k, .mk t i n tg (some cs) => by
    simp only [deep_copy_node, stripIdsNode, deep_copy_list_strip supply (k + 1) cs]

theorem deep_copy_list_strip (supply : Nat → String) :
    ∀ (k : Nat) (cs : List FavNode),
      stripIdsList (deep_copy_list supply k cs).1 = stripIdsList cs
  | k, [] => by simp [deep_copy_list, stripIdsList]
  | k, c :: cs => by
    simp only [deep_copy_list, stripIdsList, deep_copy_node_strip supply k c,
      deep_copy_list_strip supply ((deep_copy_node supply k c).2) cs]
end

/-- C7: `_deep_copy_node` produces a structurally identical subtree — same
shape, names, node types and section targets (ids erased, the trees agree) —
in which every id is freshly drawn from the uuid supply; when the drawn
uuids avoid every id of the original subtree and are pairwise distinct (what
`uuid.uuid4()` provides), every id of the copy differs from every id in the
original, and the copy's ids are pairwise distinct. -/
theorem claim_C7_deep_copy_fresh_ids (supply : Nat → String) (k : Nat) (x : FavNode)
    (hfresh : ∀ s ∈ (List.range' k (sizeNode x)).map supply, s ∉ idsNode x)
    (hnodup : ((List.range' k (sizeNode x)).map supply).Nodup) :
    stripIdsNode (deep_copy_node supply k x).1 = stripIdsNode x ∧
    (∀ s ∈ idsNode (deep_copy_node supply k x).1, s ∉ idsNode x) ∧
    (idsNode (deep_copy_node supply k x).1).Nodup := by
  rw [deep_copy_node_strip, deep_copy_node_ids]
  exact ⟨rfl, hfresh, hnodup⟩

/-- Witness for C7 at a concrete two-node subtree and supply. -/
theorem claim_C7_deep_copy_fresh_ids_witness :
    stripIdsNode
      (deep_copy_node (fun n => String.mk (List.replicate (n + 1) 'u')) 0
        (FavNode.mk "group" (some "a") "g" none
          (some [FavNode.mk "section" (some "b") "s" (some "T") none]))).1 =
      stripIdsNode
        (FavNode.mk "group" (some "a") "g" none
          (some [FavNode.mk "section" (some "b") "s" (some "T") none])) ∧
    (∀ s ∈ idsNode
        (deep_copy_node (fun n => String.mk (List.replicate (n + 1) 'u')) 0
          (FavNode.mk "group" (some "a") "g" none
            (some [FavNode.mk "section" (some "b") "s" (some "T") none]))).1,
      s ∉ idsNode
        (FavNode.mk "group" (some "a") "g" none
          (some [FavNode.mk "section" (some "b") "s" (some "T") none]))) ∧
    (idsNode
      (deep_copy_node (fun n => String.mk (List.replicate (n + 1) 'u')) 0
        (FavNode.mk "group" (some "a") "g" none
          (some [FavNode.mk "section" (some "b") "s" (some "T") none]))).1).Nodup :=
  claim_C7_deep_copy_fresh_ids _ 0 _ (by decide) (by decide)

/-- C8: loading a legacy document that has the old flat `favorites` key and
no `favorites_buffers` key yields exactly one buffer carrying the documented
default name, set active, containing the flat list unchanged and in order,
with the legacy key removed. -/
theorem claim_C8_legacy_migration (d : SettingsDoc) (favs : List FavNode)
    (hf : d.favorites = some favs) (hb : d.favorites_buffers = none) :
    load_settings d =
      { favorites := none
        favorites_buffers := some [(DEFAULT_BUFFER_NAME, favs)]
        active_buffer := some DEFAULT_BUFFER_NAME } := by
  simp [load_settings, migrate_legacy, hf, hb]

/-- Witness for C8 at a concrete legacy document. -/
theorem claim_C8_legacy_migration_witness :
    load_settings
      { favorites := some [.mk "group" none "g" none none]
        favorites_buffers := none
        active_buffer := some "other" } =
      { favorites := none
        favorites_buffers := some [(DEFAULT_BUFFER_NAME, [.mk "group" none "g" none none])]
        active_buffer := some DEFAULT_BUFFER_NAME } :=
  claim_C8_legacy_migration _ _ rfl rfl

/-- C9: with exactly one buffer in the collection, `_delete_buffer` refuses
and leaves the state (buffers, contents and active name) unchanged, for any
selection and any confirmation answer. -/
theorem claim_C9_last_buffer_refused (st : BufferState) (selected : Option String)
    (confirm : Bool) (h1 : st.buffers.length = 1) :
    delete_buffer st selected confirm = st := by
  rcases selected with _ | nm
  · rfl
  · simp [delete_buffer, h1]

/-- Witness for C9 at a concrete one-buffer collection. -/
theorem claim_C9_last_buffer_refused_witness :
    delete_buffer { buffers := [("b", [])], active := some "b" } (some "b") true =
      { buffers := [("b", [])], active := some "b" } :=
  claim_C9_last_buffer_refused _ _ _ rfl

end OneNoteRemocon
